import Mathlib

/-!
# Verification of the town-generator core against its specification

Shallow embedding of the generator of this repository (a TypeScript port of
watabou's town generator).  JavaScript `number` arithmetic is idealised as
exact rational arithmetic (`ℚ`); JavaScript integer state (the RNG seed) is
modelled as `ℤ` with `Int.tmod`, which matches the sign behaviour of the
JavaScript `%` operator.  Transcendental library functions (`Math.cos`,
`Math.sin`, `Math.pow`, `Math.PI`) are passed in as abstract parameters and
only pinned at the argument values the theorems need (e.g. `cos 0 = 1`).
Object identity of JavaScript `Point` instances (relevant because the code
compares vertices with `===` via `Array.indexOf`) is modelled by tagging each
allocated point with a fresh numeric id.
-/

namespace TownGen

/-! ## Seeded RNG — `src/utils/Random` (embedded from `src/main.ts` part)

`Random` is a linear congruential generator with global state:
`next() = (seed * 48271) % 2147483647` where `%` is the JavaScript remainder
(sign of the dividend, hence `Int.tmod`); `Math.floor` is the identity on the
integer values involved.  `float() = next() / 2147483647`. -/

def LCG_N : Int := 2147483647

def LCG_G : Int := 48271

/-- Embeds `Random.next()`: updates the seed to `(seed * g) % n` (JS `%` = `tmod`). -/
def jsNext (s : Int) : Int := (s * LCG_G).tmod LCG_N

/-- Embeds `Random.reset(seed)`: an explicit seed `≠ -1` is stored as-is, otherwise
the seed is derived from the wall clock (`Math.floor(Date.now() % n)`).
The clock is an explicit parameter of the model. -/
def resetSeed (seed clock : Int) : Int :=
  if seed ≠ -1 then seed else clock.tmod LCG_N

/-- The RNG state after `k` calls of `Random.next()` starting from state `s`. -/
def rngState (s : Int) : Nat → Int
  | 0 => s
  | k + 1 => jsNext (rngState s k)

/-- The value of the `(k+1)`-st `Random.float()` call after the state is `s`:
`float()` advances the state with `next()` and divides by `n`. -/
def floatAt (s : Int) (k : Nat) : ℚ := (rngState s (k + 1) : ℚ) / (LCG_N : ℚ)

/-- Embeds `Random.bool(chance)`; it is `float() < chance`; it advances the state once.
Returns the drawn boolean together with the new state. -/
def boolDraw (s : Int) (chance : ℚ) : Bool × Int :=
  (decide ((jsNext s : ℚ) / (LCG_N : ℚ) < chance), jsNext s)

theorem rngState_nonneg (s : Int) (hs : 0 ≤ s) : ∀ k, 0 ≤ rngState s k := by
  intro k
  induction k with
  | zero => exact hs
  | succ k ih =>
    show 0 ≤ jsNext (rngState s k)
    unfold jsNext
    exact Int.tmod_nonneg _ (mul_nonneg ih (by norm_num [LCG_G]))

theorem rngState_lt (s : Int) : ∀ k, rngState s (k + 1) < LCG_N := by
  intro k
  show jsNext (rngState s k) < LCG_N
  unfold jsNext
  exact Int.tmod_lt_of_pos _ (by norm_num [LCG_N])

/-- C4, counterexample.  The claim says every value of `Random.float()`
after `Random.reset(seed)` lies in `[0, 1)` for *every* seed.  `reset(-2)`
stores the seed `-2` verbatim (only `-1` is the clock sentinel), and the JS
remainder keeps the sign of the dividend, so the very first `float()` returns
`-96542 / 2147483647 < 0`. -/
theorem c4_float_negative_for_seed_neg2 :
    floatAt (resetSeed (-2) 0) 0 < 0 := by
  have h : rngState (resetSeed (-2) 0) 1 = -96542 := by rfl
  show ((rngState (resetSeed (-2) 0) 1 : Int) : ℚ) / (LCG_N : ℚ) < 0
  rw [h]
  norm_num [LCG_N]

/-- C4, amended.  For every *nonnegative* stored seed the `float()`
sequence is independent of the wall clock (so two runs with the same seed
reproduce the same sequence) and every value lies in `[0, 1)`. -/
theorem c4_reset_float_deterministic_in_unit_range
    (s : Int) (hs : 0 ≤ s) (c c' : Int) (k : Nat) :
    floatAt (resetSeed s c) k = floatAt (resetSeed s c') k ∧
      0 ≤ floatAt (resetSeed s c) k ∧ floatAt (resetSeed s c) k < 1 := by
  have hne : s ≠ -1 := by omega
  have hr : ∀ c0 : Int, resetSeed s c0 = s := by
    intro c0; simp [resetSeed, hne]
  refine ⟨by rw [hr, hr], ?_, ?_⟩
  · rw [hr]
    have h0 : (0 : Int) ≤ rngState s (k + 1) := rngState_nonneg s hs (k + 1)
    unfold floatAt
    have h1 : (0 : ℚ) ≤ (rngState s (k + 1) : ℚ) := by exact_mod_cast h0
    exact div_nonneg h1 (by norm_num [LCG_N])
  · rw [hr]
    unfold floatAt
    rw [div_lt_one (by norm_num [LCG_N])]
    exact_mod_cast rngState_lt s k

/-- C4, witness for the amended theorem at seed 42. -/
theorem c4_witness :
    (0 : Int) ≤ 42 ∧ floatAt (resetSeed 42 0) 1 = floatAt (resetSeed 42 99) 1 ∧
      0 ≤ floatAt (resetSeed 42 0) 1 ∧ floatAt (resetSeed 42 0) 1 < 1 :=
  ⟨by norm_num, (c4_reset_float_deterministic_in_unit_range 42 (by norm_num) 0 99 1).1,
    (c4_reset_float_deterministic_in_unit_range 42 (by norm_num) 0 99 1).2.1,
    (c4_reset_float_deterministic_in_unit_range 42 (by norm_num) 0 99 1).2.2⟩

/-! ## `Model.initSync` — seeding and the bounded retry driver
(`src/src/generator/Model.ts`, lines 79–115)

`initSync` seeds the RNG (`Random.reset(seed)` when `seed > 0`, otherwise from
the clock), normalises `nPatches` (`-1 ↦ 15`), draws the three feature flags
with `Random.bool()`, and then retries `build()` up to `MAX_ATTEMPTS = 5`
times; a failed attempt calls `Random.reset()` (clock-derived seed!) before
the next try, a successful attempt publishes `Model.instance` and stops; if
all attempts fail, `initSync` throws.  `build()` is a pure function of the
RNG state it starts from (plus the flags and size), so it is abstracted here
as a parameter `attempt`; `none` models `build()` throwing. -/

/-- Embeds `this.nPatches = nPatches !== -1 ? nPatches : 15`. -/
def normPatches (n : Int) : Int := if n ≠ -1 then n else 15

/-- The seeding at the top of `initSync`: explicit seed when `seed > 0`,
otherwise clock-derived (`Random.reset()`). -/
def initState (s clock : Int) : Int := if 0 < s then s else resetSeed (-1) clock

/-- The three `Random.bool()` draws for `plazaNeeded`, `citadelNeeded`,
`wallsNeeded`, returning the flags and the RNG state entering `build()`. -/
def drawFlags (st : Int) : (Bool × Bool × Bool) × Int :=
  let r1 := boolDraw st (1/2)
  let r2 := boolDraw r1.2 (1/2)
  let r3 := boolDraw r2.2 (1/2)
  ((r1.1, r2.1, r3.1), r3.2)

/-- The retry loop of `initSync`.  `rem` is the remaining attempt budget
(`MAX_ATTEMPTS - attempts`), `st` the RNG state entering the next `build()`,
`calls` the number of `build()` calls made so far.  On failure the RNG is
reset from the wall clock (`Random.reset()`), exactly as in the source. -/
def buildLoop {O : Type} (f : Int → Option O) (clock : Nat → Int) :
    Nat → Int → Nat → Nat × Option O
  | 0, _, calls => (calls, none)
  | rem + 1, st, calls =>
    match f st with
    | some o => (calls + 1, some o)
    | none => buildLoop f clock rem (resetSeed (-1) (clock (calls + 1))) (calls + 1)

/-- The whole of `initSync`: seeding, flag draws, retry loop.  `attempt`
abstracts `build()` as a pure function of the size, the flags and the RNG
state it starts from; `clock` is the wall clock consulted by `Random.reset()`
(index 0 for the initial reset when no explicit seed is given, index `k ≥ 1`
after the `k`-th failed attempt).  The second component is the published
`Model.instance`: `none` means `initSync` threw. -/
def runInitSync {O : Type} (attempt : Int → Bool → Bool → Bool → Int → Option O)
    (n s : Int) (clock : Nat → Int) : Nat × Option O :=
  let st0 := initState s (clock 0)
  let fl := drawFlags st0
  buildLoop (attempt (normPatches n) fl.1.1 fl.1.2.1 fl.1.2.2) clock 5 fl.2 0

theorem buildLoop_spec {O : Type} (f : Int → Option O) (clock : Nat → Int) :
    ∀ (rem : Nat) (st : Int) (calls : Nat),
      (buildLoop f clock rem st calls).1 ≤ calls + rem ∧
      ((buildLoop f clock rem st calls).2 = none →
        (buildLoop f clock rem st calls).1 = calls + rem) ∧
      (∀ o, (buildLoop f clock rem st calls).2 = some o → ∃ st', f st' = some o) ∧
      ((∀ st', f st' = none) → (buildLoop f clock rem st calls).2 = none) := by
  intro rem
  induction rem with
  | zero =>
    intro st calls
    refine ⟨by simp [buildLoop], by simp [buildLoop], ?_, by simp [buildLoop]⟩
    intro o h
    simp [buildLoop] at h
  | succ rem ih =>
    intro st calls
    cases hf : f st with
    | some o =>
      refine ⟨?_, ?_, ?_, ?_⟩ <;> simp only [buildLoop, hf]
      · omega
      · intro h; cases h
      · intro o' h
        exact ⟨st, by rw [hf]; exact_mod_cast h⟩
      · intro hall
        rw [hall st] at hf
        cases hf
    | none =>
      have ih' := ih (resetSeed (-1) (clock (calls + 1))) (calls + 1)
      refine ⟨?_, ?_, ?_, ?_⟩ <;> simp only [buildLoop, hf]
      · have := ih'.1; omega
      · intro h
        have := ih'.2.1 h; omega
      · exact ih'.2.2.1
      · exact ih'.2.2.2

/-- C3, theorem.  The `initSync` driver: (1) makes at most 5 `build()`
attempts; (2) throws (`none`) only after exactly 5 failed attempts;
(3) any published `Model.instance` is the output of a fully successful
`build()` — no partial model is ever published; (4) if every attempt fails,
construction fails terminally. -/
theorem c3_bounded_retry_publishes_only_success {O : Type}
    (attempt : Int → Bool → Bool → Bool → Int → Option O)
    (n s : Int) (clock : Nat → Int) :
    (runInitSync attempt n s clock).1 ≤ 5 ∧
    ((runInitSync attempt n s clock).2 = none →
      (runInitSync attempt n s clock).1 = 5) ∧
    (∀ o, (runInitSync attempt n s clock).2 = some o →
      ∃ p c w st', attempt (normPatches n) p c w st' = some o) ∧
    ((∀ p c w st', attempt (normPatches n) p c w st' = none) →
      (runInitSync attempt n s clock).2 = none) := by
  have h := buildLoop_spec
    (attempt (normPatches n) (drawFlags (initState s (clock 0))).1.1
      (drawFlags (initState s (clock 0))).1.2.1
      (drawFlags (initState s (clock 0))).1.2.2) clock 5
    (drawFlags (initState s (clock 0))).2 0
  refine ⟨h.1, h.2.1, ?_, ?_⟩
  · intro o ho
    obtain ⟨st', hst'⟩ := h.2.2.1 o ho
    exact ⟨_, _, _, st', hst'⟩
  · intro hall
    exact h.2.2.2 (fun st' => hall _ _ _ st')

/-- C3, witness: with an always-succeeding build the driver publishes its
output, which is the output of a successful attempt; the call count is ≤ 5. -/
theorem c3_witness :
    (runInitSync (fun _ _ _ _ _ => some 99) 15 42 (fun _ => 0)).1 ≤ 5 ∧
      ∃ p c w st', (fun (_ : Int) (_ _ _ : Bool) (_ : Int) => some 99)
        (normPatches 15) p c w st' = some (99 : Nat) :=
  ⟨(c3_bounded_retry_publishes_only_success (fun _ _ _ _ _ => some 99) 15 42 (fun _ => 0)).1,
    (c3_bounded_retry_publishes_only_success (fun _ _ _ _ _ => some 99) 15 42
      (fun _ => 0)).2.2.1 99 (by rfl)⟩

theorem buildLoop_succ_of_some {O : Type} (f : Int → Option O) (clock : Nat → Int)
    (rem : Nat) (st : Int) (calls : Nat) (o : O) (h : f st = some o) :
    buildLoop f clock (rem + 1) st calls = (calls + 1, some o) := by
  simp [buildLoop, h]

/-- A `build()` behaviour that fails on exactly one entry state (the state
reached from seed 42) and succeeds, returning its entry state, on all others.
`build()` does fail on real inputs (degenerate geometry, failed gate or
street construction); this instance exercises the driver's retry path. -/
def c1AttemptEx : Int → Bool → Bool → Bool → Int → Option Int :=
  fun _ _ _ _ st => if st = (drawFlags 42).2 then none else some st

/-- C1, counterexample.  Two runs of the `initSync` driver with the same
explicit seed 42 and the same size, differing only in the wall clock, publish
*different* outputs as soon as the first `build()` attempt fails: the retry
path calls `Random.reset()` with no argument, which derives the new seed from
`Date.now()`.  Hence "identical seed ⇒ bit-identical output" does not hold of
the cited driver whenever any attempt fails and a later one succeeds. -/
theorem c1_retry_breaks_seed_determinism :
    (runInitSync c1AttemptEx 15 42 (fun _ => 7)).2 ≠
      (runInitSync c1AttemptEx 15 42 (fun _ => 8)).2 := by
  have h7 : (runInitSync c1AttemptEx 15 42 (fun _ => 7)).2 = some 7 := rfl
  have h8 : (runInitSync c1AttemptEx 15 42 (fun _ => 8)).2 = some 8 := rfl
  rw [h7, h8]
  simp

/-- C1, amended.  For a fixed explicit seed `s > 0` and fixed size, the
seeding and flag draws never consult the clock, so if the *first* `build()`
attempt succeeds the published output is a function of `(n, s)` alone: two
independent runs (arbitrary clocks) are bit-identical.  (Only the retry path
after a failed attempt consults the wall clock.) -/
theorem c1_deterministic_when_first_attempt_succeeds {O : Type}
    (attempt : Int → Bool → Bool → Bool → Int → Option O) (n s : Int)
    (hs : 0 < s) (o : O)
    (hsucc : attempt (normPatches n) (drawFlags s).1.1 (drawFlags s).1.2.1
      (drawFlags s).1.2.2 (drawFlags s).2 = some o)
    (clock clock' : Nat → Int) :
    runInitSync attempt n s clock = runInitSync attempt n s clock' ∧
      runInitSync attempt n s clock = (1, some o) := by
  have hst : ∀ c : Nat → Int, initState s (c 0) = s := fun c => if_pos hs
  have hrun : ∀ c : Nat → Int, runInitSync attempt n s c = (1, some o) := by
    intro c
    show buildLoop _ c 5 (drawFlags (initState s (c 0))).2 0 = (1, some o)
    rw [hst]
    exact buildLoop_succ_of_some _ c 4 _ 0 o hsucc
  rw [hrun clock, hrun clock']
  exact ⟨rfl, rfl⟩

/-- C1, witness for the amended theorem: an always-succeeding build with
seed 42 gives identical runs under two different clocks. -/
theorem c1_witness :
    (0 : Int) < 42 ∧
      runInitSync (fun (_ : Int) (_ _ _ : Bool) (st : Int) => some st) 15 42
          (fun _ => 0) =
        runInitSync (fun (_ : Int) (_ _ _ : Bool) (st : Int) => some st) 15 42
          (fun _ => 1) :=
  ⟨by norm_num,
    (c1_deterministic_when_first_attempt_succeeds
      (fun _ _ _ _ st => some st) 15 42 (by norm_num) ((drawFlags 42).2) rfl
      (fun _ => 0) (fun _ => 1)).1⟩

/-! ## Geometry value model — `Point`, `GeomUtils`, `Polygon`
(`src/src/geom/GeomUtils.ts`, `src/unnamed/part_011`)

A polygon value is its list of vertex coordinates (`ℚ × ℚ`); the `Polygon`
constructor's cloning does not change coordinate values, so value-level
operations (`square`, `cut`, …) are embedded directly on the list. -/

abbrev Pt := ℚ × ℚ

/-- Embeds `GeomUtils.cross(x1, y1, x2, y2) = x1*y2 - y1*x2` on two vectors. -/
def cross2 (a b : Pt) : ℚ := a.1 * b.2 - a.2 * b.1

/-- Embeds `GeomUtils.intersectLines`: solves for the parameters `(t1, t2)` of the
intersection of `(x1,y1)+t1·(dx1,dy1)` and `(x2,y2)+t2·(dx2,dy2)`; returns
`none` when `|det| < 0.0001` (treated as parallel). -/
def intersectLines (x1 y1 dx1 dy1 x2 y2 dx2 dy2 : ℚ) : Option (ℚ × ℚ) :=
  let d := dx1 * dy2 - dy1 * dx2
  if |d| < 1/10000 then none
  else
    let t2 := (dy1 * (x2 - x1) - dx1 * (y2 - y1)) / d
    let t1 := if dx1 ≠ 0 then (x2 - x1 + dx2 * t2) / dx1
              else (y2 - y1 + dy2 * t2) / dy1
    some (t1, t2)

/-- The intersection test `Polygon.cut` applies to edge `i` (from vertex `i`
to vertex `(i+1) mod len`): a hit is an intersection whose edge parameter
`t2` lies in `[0, 1]`. -/
def hitTest (l : List Pt) (p1 p2 : Pt) (i : Nat) : Option (ℚ × ℚ) :=
  (intersectLines p1.1 p1.2 (p2.1 - p1.1) (p2.2 - p1.2)
      (l.getD i (0, 0)).1 (l.getD i (0, 0)).2
      ((l.getD ((i + 1) % l.length) (0, 0)).1 - (l.getD i (0, 0)).1)
      ((l.getD ((i + 1) % l.length) (0, 0)).2 - (l.getD i (0, 0)).2)).bind
    (fun t => if 0 ≤ t.2 ∧ t.2 ≤ 1 then some t else none)

/-- The scan in `Polygon.cut` over all edges in index order, collecting every
hit as `(edge index, t1, t2)`.  The source keeps only the first two hits plus
a total count and proceeds only when the count is exactly 2; keeping the full
ordered list and pattern-matching on a two-element list is equivalent. -/
def cutHits (l : List Pt) (p1 p2 : Pt) : List (Nat × ℚ × ℚ) :=
  (List.range l.length).filterMap
    (fun i => (hitTest l p1 p2 i).map (fun t => (i, t.1, t.2)))

/-- Embeds `Polygon.cut(p1, p2, gap)`: when the scan finds exactly two hits the
polygon is split into the two halves, each closed with the two intersection
points; the halves are ordered by the sign of the cross product of the cut
direction with the first cut edge.  The `gap` parameter is accepted but
**never used** — the gap-insertion path in the source is an unimplemented
`TODO` ("For now, return without gap").  With any other hit count the
original polygon is returned as a single-element list. -/
def cutQ (l : List Pt) (p1 p2 : Pt) (gap : ℚ) : List (List Pt) :=
  match cutHits l p1 p2 with
  | [(e1, r1, _), (e2, r2, _)] =>
    let q1 : Pt := (p1.1 + (p2.1 - p1.1) * r1, p1.2 + (p2.2 - p1.2) * r1)
    let q2 : Pt := (p1.1 + (p2.1 - p1.1) * r2, p1.2 + (p2.2 - p1.2) * r2)
    let half1 : List Pt := q1 :: ((l.drop (e1 + 1)).take (e2 - e1) ++ [q2])
    let half2 : List Pt := q2 :: ((l.drop (e2 + 1) ++ l.take (e1 + 1)) ++ [q1])
    let a := l.getD e1 (0, 0)
    let b := l.getD ((e1 + 1) % l.length) (0, 0)
    if cross2 (p2.1 - p1.1, p2.2 - p1.2) (b.1 - a.1, b.2 - a.2) > 0
    then [half1, half2] else [half2, half1]
  | _ => [l]

/-- The rectangle block used as concrete test input: vertices
`(-2,-1), (2,-1), (2,1), (-2,1)` (counter-clockwise, longest edge at the
bottom).  `Cutter.bisect` at ratio ½ / angle 0 on the longest edge cuts it
along the vertical chord from `(0,-1)` towards `(0,3)`. -/
def rectR : List Pt := [(-2, -1), (2, -1), (2, 1), (-2, 1)]

theorem rect_hit0 : hitTest rectR (0, -1) (0, 3) 0 = some (0, 1/2) := by
  rw [hitTest]
  norm_num [rectR, intersectLines]

theorem rect_hit1 : hitTest rectR (0, -1) (0, 3) 1 = none := by
  rw [hitTest]
  norm_num [rectR, intersectLines]

theorem rect_hit2 : hitTest rectR (0, -1) (0, 3) 2 = some (1/2, 1/2) := by
  rw [hitTest]
  norm_num [rectR, intersectLines]

theorem rect_hit3 : hitTest rectR (0, -1) (0, 3) 3 = none := by
  rw [hitTest]
  norm_num [rectR, intersectLines]

theorem rect_cutHits : cutHits rectR (0, -1) (0, 3) = [(0, 0, 1/2), (2, 1/2, 1/2)] := by
  rw [cutHits, show List.range rectR.length = [0, 1, 2, 3] from rfl]
  simp [List.filterMap_cons, rect_hit0, rect_hit1, rect_hit2, rect_hit3]

/-- C6, counterexample.  `Ward.createAlleys` with splitting enabled calls
`Cutter.bisect(..., gap = Ward.ALLEY = 0.6)`, which forwards the gap to
`Polygon.cut`.  On the rectangle block the requested 0.6-wide alley changes
nothing: the result equals the gap-0 cut, and the two sub-polygons *share*
the two cut points `(0,-1)` and `(0,1)` (separation 0, not 0.6). -/
theorem c6_alley_gap_not_inserted :
    cutQ rectR (0, -1) (0, 3) (3/5) = cutQ rectR (0, -1) (0, 3) 0 ∧
    cutQ rectR (0, -1) (0, 3) (3/5) =
      [[(0, 1), (-2, 1), (-2, -1), (0, -1)], [(0, -1), (2, -1), (2, 1), (0, 1)]] ∧
    ((0, -1) : Pt) ∈ (cutQ rectR (0, -1) (0, 3) (3/5)).getD 0 [] ∧
    ((0, -1) : Pt) ∈ (cutQ rectR (0, -1) (0, 3) (3/5)).getD 1 [] ∧
    ((0, 1) : Pt) ∈ (cutQ rectR (0, -1) (0, 3) (3/5)).getD 0 [] ∧
    ((0, 1) : Pt) ∈ (cutQ rectR (0, -1) (0, 3) (3/5)).getD 1 [] := by
  have hcut : cutQ rectR (0, -1) (0, 3) (3/5) =
      [[(0, 1), (-2, 1), (-2, -1), (0, -1)], [(0, -1), (2, -1), (2, 1), (0, 1)]] := by
    rw [cutQ, rect_cutHits]
    norm_num [rectR, cross2]
  refine ⟨rfl, hcut, ?_, ?_, ?_, ?_⟩ <;> rw [hcut] <;> norm_num

/-- C6, amended.  The cut never inserts the requested gap: `cut` ignores
its `gap` parameter entirely (the result coincides with the gap-0 cut), and
whenever a split does produce two sub-polygons they share the two cut points
— the halves meet along the cut chord instead of being separated by the
alley width. -/
theorem c6_cut_halves_share_cut_chord (l : List Pt) (p1 p2 : Pt) (gap : ℚ) :
    cutQ l p1 p2 gap = cutQ l p1 p2 0 ∧
    ∀ h1 h2, cutQ l p1 p2 gap = [h1, h2] →
      ∃ q1 q2, q1 ∈ h1 ∧ q1 ∈ h2 ∧ q2 ∈ h1 ∧ q2 ∈ h2 := by
  refine ⟨rfl, ?_⟩
  intro h1 h2 hcut
  rw [cutQ] at hcut
  rcases hh : cutHits l p1 p2 with _ | ⟨⟨e1, r1, t1⟩, _ | ⟨⟨e2, r2, t2⟩, rest⟩⟩
  · rw [hh] at hcut
    simp at hcut
  · rw [hh] at hcut
    simp at hcut
  · cases rest with
    | nil =>
      rw [hh] at hcut
      by_cases hc : cross2 (p2.1 - p1.1, p2.2 - p1.2)
          ((l.getD ((e1 + 1) % l.length) (0, 0)).1 - (l.getD e1 (0, 0)).1,
           (l.getD ((e1 + 1) % l.length) (0, 0)).2 - (l.getD e1 (0, 0)).2) > 0
      · simp only [if_pos hc, List.cons.injEq, and_true] at hcut
        refine ⟨(p1.1 + (p2.1 - p1.1) * r1, p1.2 + (p2.2 - p1.2) * r1),
                (p1.1 + (p2.1 - p1.1) * r2, p1.2 + (p2.2 - p1.2) * r2),
                ?_, ?_, ?_, ?_⟩
        · rw [← hcut.1]; simp
        · rw [← hcut.2]; simp
        · rw [← hcut.1]; simp
        · rw [← hcut.2]; simp
      · simp only [if_neg hc, List.cons.injEq, and_true] at hcut
        refine ⟨(p1.1 + (p2.1 - p1.1) * r1, p1.2 + (p2.2 - p1.2) * r1),
                (p1.1 + (p2.1 - p1.1) * r2, p1.2 + (p2.2 - p1.2) * r2),
                ?_, ?_, ?_, ?_⟩
        · rw [← hcut.1]; simp
        · rw [← hcut.2]; simp
        · rw [← hcut.1]; simp
        · rw [← hcut.2]; simp
    | cons c rest' =>
      rw [hh] at hcut
      simp at hcut

/-- C6, witness for the amended theorem at the rectangle block. -/
theorem c6_witness :
    ∃ q1 q2 : Pt,
      q1 ∈ [((0 : ℚ), (1 : ℚ)), (-2, 1), (-2, -1), (0, -1)] ∧
      q1 ∈ [((0 : ℚ), (-1 : ℚ)), (2, -1), (2, 1), (0, 1)] ∧
      q2 ∈ [((0 : ℚ), (1 : ℚ)), (-2, 1), (-2, -1), (0, -1)] ∧
      q2 ∈ [((0 : ℚ), (-1 : ℚ)), (2, -1), (2, 1), (0, 1)] :=
  (c6_cut_halves_share_cut_chord rectR (0, -1) (0, 3) (3/5)).2
    [(0, 1), (-2, 1), (-2, -1), (0, -1)] [(0, -1), (2, -1), (2, 1), (0, 1)]
    (by
      rw [cutQ, rect_cutHits]
      norm_num [rectR, cross2])

/-! ## Signed area — `Polygon.square` (shoelace) -/

/-- The open shoelace sum along a vertex path (no closing edge). -/
def pathSum : List Pt → ℚ
  | a :: b :: t => cross2 a b + pathSum (b :: t)
  | _ => 0

/-- The cyclic shoelace sum `Σ_i cross(v_i, v_{(i+1) mod n})`. -/
def cyclicSum : List Pt → ℚ
  | [] => 0
  | a :: t => pathSum (a :: t) + cross2 (t.getLastD a) a

/-- Embeds `Polygon.square`: half the cyclic shoelace sum; 0 for fewer than 3
vertices. -/
def squareQ (l : List Pt) : ℚ := if l.length < 3 then 0 else cyclicSum l / 2

theorem cross2_antisymm (a b : Pt) : cross2 a b = -cross2 b a := by
  unfold cross2; ring

theorem pathSum_cons (a : Pt) (ys : List Pt) (hy : ys ≠ []) :
    pathSum (a :: ys) = cross2 a (ys.headD (0, 0)) + pathSum ys := by
  cases ys with
  | nil => exact absurd rfl hy
  | cons b t => rfl

theorem headD_append_left (X Y : List Pt) (hX : X ≠ []) (d : Pt) :
    (X ++ Y).headD d = X.headD d := by
  cases X with
  | nil => exact absurd rfl hX
  | cons a t => rfl

theorem getLastD_concat (l : List Pt) (q d : Pt) : (l ++ [q]).getLastD d = q := by
  simp [List.getLastD_eq_getLast?, List.getLast?_concat]

theorem getLastD_append_right (X Y : List Pt) (hY : Y ≠ []) (d : Pt) :
    (X ++ Y).getLastD d = Y.getLastD d := by
  cases hyl : Y.getLast? with
  | none => exact absurd (List.getLast?_eq_none_iff.mp hyl) hY
  | some x => simp [List.getLastD_eq_getLast?, List.getLast?_append, hyl]

theorem getLastD_cons_ne_nil (a : Pt) (t : List Pt) (ht : t ≠ []) (d : Pt) :
    (a :: t : List Pt).getLastD d = t.getLastD d := by
  cases t with
  | nil => exact absurd rfl ht
  | cons b u => rfl

theorem pathSum_append (xs ys : List Pt) (hx : xs ≠ []) (hy : ys ≠ []) :
    pathSum (xs ++ ys) =
      pathSum xs + cross2 (xs.getLastD (0, 0)) (ys.headD (0, 0)) + pathSum ys := by
  induction xs with
  | nil => exact absurd rfl hx
  | cons a xs ih =>
    cases xs with
    | nil =>
      rw [List.singleton_append, pathSum_cons a ys hy]
      simp [pathSum, List.getLastD]
    | cons b t =>
      have hbt : (b :: t : List Pt) ≠ [] := by simp
      have h1 : pathSum ((a :: b :: t) ++ ys) =
          cross2 a b + pathSum ((b :: t) ++ ys) := rfl
      rw [h1, ih hbt]
      have h2 : pathSum (a :: b :: t) = cross2 a b + pathSum (b :: t) := rfl
      rw [h2, getLastD_cons_ne_nil a (b :: t) hbt]
      ring

theorem cyclicSum_eq (l : List Pt) (h : l ≠ []) :
    cyclicSum l = pathSum l + cross2 (l.getLastD (0, 0)) (l.headD (0, 0)) := by
  cases l with
  | nil => exact absurd rfl h
  | cons a t =>
    show pathSum (a :: t) + cross2 (t.getLastD a) a = _
    have : (a :: t : List Pt).getLastD (0, 0) = t.getLastD a := by
      cases t <;> simp [List.getLastD]
    rw [this]
    rfl

/-- Shoelace additivity of a chord split.  `X ++ Y ++ Z` is the original
cyclic vertex list; the chord enters on the edge `last X → head Y` at `q1`
and leaves on the edge `last Y → head (Z ++ X)` at `q2` (collinearity is
taken in the "bracket" form used below, which is all the shoelace algebra
needs).  The two halves are exactly the vertex lists built by `cut`. -/
theorem cyclicSum_split (X Y Z : List Pt) (q1 q2 : Pt)
    (hX : X ≠ []) (hY : Y ≠ [])
    (hq1 : cross2 (X.getLastD (0, 0)) q1 + cross2 q1 (Y.headD (0, 0)) =
      cross2 (X.getLastD (0, 0)) (Y.headD (0, 0)))
    (hq2 : cross2 (Y.getLastD (0, 0)) q2 + cross2 q2 ((Z ++ X).headD (0, 0)) =
      cross2 (Y.getLastD (0, 0)) ((Z ++ X).headD (0, 0))) :
    cyclicSum (q1 :: (Y ++ [q2])) + cyclicSum (q2 :: ((Z ++ X) ++ [q1])) =
      cyclicSum (X ++ Y ++ Z) := by
  have hYq2 : (Y ++ [q2] : List Pt) ≠ [] := by simp
  have hZX : (Z ++ X : List Pt) ≠ [] := by simp [hX]
  have hZXq1 : ((Z ++ X) ++ [q1] : List Pt) ≠ [] := by simp
  -- left half
  have e1 : cyclicSum (q1 :: (Y ++ [q2])) =
      cross2 q1 (Y.headD (0, 0)) + pathSum Y + cross2 (Y.getLastD (0, 0)) q2 +
        cross2 q2 q1 := by
    rw [cyclicSum_eq _ (by simp), pathSum_cons _ _ hYq2,
      pathSum_append Y [q2] hY (by simp), headD_append_left Y [q2] hY,
      getLastD_cons_ne_nil q1 (Y ++ [q2]) hYq2, getLastD_concat]
    have hhd : ((q1 :: (Y ++ [q2])) : List Pt).headD (0, 0) = q1 := rfl
    rw [hhd]
    simp [pathSum, List.headD]
    ring
  -- right half
  have e2 : cyclicSum (q2 :: ((Z ++ X) ++ [q1])) =
      cross2 q2 ((Z ++ X).headD (0, 0)) + pathSum (Z ++ X) +
        cross2 (X.getLastD (0, 0)) q1 + cross2 q1 q2 := by
    rw [cyclicSum_eq _ (by simp), pathSum_cons _ _ hZXq1,
      pathSum_append (Z ++ X) [q1] hZX (by simp),
      headD_append_left (Z ++ X) [q1] hZX,
      getLastD_cons_ne_nil q2 ((Z ++ X) ++ [q1]) hZXq1, getLastD_concat,
      getLastD_append_right Z X hX]
    have hhd : ((q2 :: ((Z ++ X) ++ [q1])) : List Pt).headD (0, 0) = q2 := rfl
    rw [hhd]
    simp [pathSum, List.headD]
    ring
  -- whole polygon
  by_cases hZcase : Z = ([] : List Pt)
  · subst hZcase
    have hXY : (X ++ Y : List Pt) ≠ [] := by simp [hX]
    have e3 : cyclicSum (X ++ Y ++ []) =
        pathSum X + cross2 (X.getLastD (0, 0)) (Y.headD (0, 0)) + pathSum Y +
          cross2 (Y.getLastD (0, 0)) (X.headD (0, 0)) := by
      rw [List.append_nil, cyclicSum_eq _ hXY, pathSum_append X Y hX hY,
        getLastD_append_right X Y hY, headD_append_left X Y hX]
    rw [e1, e2, e3]
    rw [List.nil_append] at hq2 ⊢
    have hanti := cross2_antisymm q1 q2
    linarith [hq1, hq2, hanti]
  · have hZne : (Z : List Pt) ≠ [] := hZcase
    have hYZ : (Y ++ Z : List Pt) ≠ [] := by simp [hY]
    have e3 : cyclicSum (X ++ Y ++ Z) =
        pathSum X + cross2 (X.getLastD (0, 0)) (Y.headD (0, 0)) + pathSum Y +
          cross2 (Y.getLastD (0, 0)) (Z.headD (0, 0)) + pathSum Z +
          cross2 (Z.getLastD (0, 0)) (X.headD (0, 0)) := by
      rw [List.append_assoc, cyclicSum_eq _ (by simp [hX]),
        pathSum_append X (Y ++ Z) hX hYZ, pathSum_append Y Z hY hZne,
        headD_append_left Y Z hY, getLastD_append_right X (Y ++ Z) hYZ,
        getLastD_append_right Y Z hZne, headD_append_left X (Y ++ Z) hX]
      ring
    have e4 : pathSum (Z ++ X) =
        pathSum Z + cross2 (Z.getLastD (0, 0)) (X.headD (0, 0)) + pathSum X :=
      pathSum_append Z X hZne hX
    have e5 : (Z ++ X : List Pt).headD (0, 0) = Z.headD (0, 0) :=
      headD_append_left Z X hZne (0, 0)
    rw [e5] at hq2
    rw [e1, e2, e3, e4, e5]
    have hanti := cross2_antisymm q1 q2
    linarith [hq1, hq2]

theorem bracket_of_on_edge_line (v0 v1 q : Pt) (t : ℚ)
    (hqx : q.1 = v0.1 + t * (v1.1 - v0.1)) (hqy : q.2 = v0.2 + t * (v1.2 - v0.2)) :
    cross2 v0 q + cross2 q v1 = cross2 v0 v1 := by
  unfold cross2
  rw [hqx, hqy]
  ring

/-- When `intersectLines` returns parameters, they exactly solve the two
line equations (exact rational arithmetic). -/
theorem intersectLines_spec (x1 y1 dx1 dy1 x2 y2 dx2 dy2 t1 t2 : ℚ)
    (h : intersectLines x1 y1 dx1 dy1 x2 y2 dx2 dy2 = some (t1, t2)) :
    x1 + t1 * dx1 = x2 + t2 * dx2 ∧ y1 + t1 * dy1 = y2 + t2 * dy2 := by
  simp only [intersectLines] at h
  by_cases hd : |dx1 * dy2 - dy1 * dx2| < 1/10000
  · rw [if_pos hd] at h
    exact Option.noConfusion h
  · rw [if_neg hd] at h
    have hdne : dx1 * dy2 - dy1 * dx2 ≠ 0 := fun h0 => hd (by rw [h0]; norm_num)
    rw [Option.some.injEq, Prod.mk.injEq] at h
    obtain ⟨ht1, ht2⟩ := h
    by_cases hx : dx1 = 0
    · have hdy1 : dy1 ≠ 0 := fun h0 => hdne (by rw [hx, h0]; ring)
      have hdx2 : dx2 ≠ 0 := fun h0 => hdne (by rw [hx, h0]; ring)
      subst hx
      rw [if_neg (by norm_num)] at ht1
      subst ht1
      subst ht2
      constructor
      · field_simp
        ring
      · field_simp
        ring
    · rw [if_pos hx] at ht1
      subst ht1
      subst ht2
      constructor
      · field_simp
        ring
      · field_simp
        ring

theorem cutHits_mem (l : List Pt) (p1 p2 : Pt) (x : Nat × ℚ × ℚ)
    (hx : x ∈ cutHits l p1 p2) :
    x.1 < l.length ∧ hitTest l p1 p2 x.1 = some (x.2.1, x.2.2) := by
  rw [cutHits] at hx
  rw [List.mem_filterMap] at hx
  obtain ⟨i, hi, hfi⟩ := hx
  rw [Option.map_eq_some'] at hfi
  obtain ⟨t, ht, hxe⟩ := hfi
  subst hxe
  exact ⟨List.mem_range.mp hi, by rw [ht]⟩

theorem filterMap_range_pairwise (f : Nat → Option (Nat × ℚ × ℚ))
    (hf : ∀ i x, f i = some x → x.1 = i) :
    ∀ is : List Nat, is.Pairwise (· < ·) →
      (is.filterMap f).Pairwise (fun a b => a.1 < b.1) := by
  intro is
  induction is with
  | nil => intro _; simp
  | cons i is ih =>
    intro hpw
    rw [List.pairwise_cons] at hpw
    cases hfi : f i with
    | none =>
      rw [List.filterMap_cons_none hfi]
      exact ih hpw.2
    | some x =>
      rw [List.filterMap_cons_some hfi]
      rw [List.pairwise_cons]
      refine ⟨?_, ih hpw.2⟩
      intro y hy
      rw [List.mem_filterMap] at hy
      obtain ⟨j, hj, hfj⟩ := hy
      rw [hf i x hfi, hf j y hfj]
      exact hpw.1 j hj

theorem cutHits_pairwise (l : List Pt) (p1 p2 : Pt) :
    (cutHits l p1 p2).Pairwise (fun a b => a.1 < b.1) := by
  rw [cutHits]
  refine filterMap_range_pairwise _ ?_ _ (List.pairwise_lt_range _)
  intro i x h
  rw [Option.map_eq_some'] at h
  obtain ⟨t, _, hxe⟩ := h
  subst hxe
  rfl

theorem take_succ_getLastD (l : List Pt) (i : Nat) (hi : i < l.length) :
    (l.take (i + 1)).getLastD (0, 0) = l.getD i (0, 0) := by
  rw [List.getLastD_eq_getLast?, List.getLast?_eq_getElem?, List.length_take]
  have hm : min (i + 1) l.length = i + 1 := by omega
  rw [hm]
  simp only [Nat.add_sub_cancel, List.getElem?_take, Nat.lt_succ_self, if_pos,
    List.getD_eq_getElem?_getD]

theorem drop_take_headD (l : List Pt) (a b : Nat) (hb : 0 < b) :
    ((l.drop a).take b).headD (0, 0) = l.getD a (0, 0) := by
  rw [List.headD_eq_head?, List.head?_eq_getElem?]
  rw [List.getElem?_take, if_pos hb, List.getElem?_drop,
    List.getD_eq_getElem?_getD, Nat.add_zero]

theorem drop_take_getLastD (l : List Pt) (a b : Nat) (hb : 0 < b)
    (hab : a + b ≤ l.length) :
    ((l.drop a).take b).getLastD (0, 0) = l.getD (a + b - 1) (0, 0) := by
  rw [List.getLastD_eq_getLast?, List.getLast?_eq_getElem?, List.length_take,
    List.length_drop]
  have hm : min b (l.length - a) = b := by omega
  rw [hm]
  rw [List.getElem?_take, if_pos (by omega), List.getElem?_drop,
    List.getD_eq_getElem?_getD]
  congr 2
  omega

theorem drop_headD (l : List Pt) (a : Nat) :
    (l.drop a).headD (0, 0) = l.getD a (0, 0) := by
  rw [List.headD_eq_head?, List.head?_eq_getElem?, List.getElem?_drop,
    List.getD_eq_getElem?_getD, Nat.add_zero]

theorem headD_eq_getD_zero (l : List Pt) (h : l ≠ []) :
    l.headD (0, 0) = l.getD 0 (0, 0) := by
  cases l with
  | nil => exact absurd rfl h
  | cons a t => rfl

theorem take_headD (l : List Pt) (k : Nat) (hk : 0 < k) :
    (l.take k).headD (0, 0) = l.getD 0 (0, 0) := by
  rw [List.headD_eq_head?, List.head?_eq_getElem?, List.getElem?_take, if_pos hk,
    List.getD_eq_getElem?_getD]

/-- C8, amended.  Whenever the intersection scan of `Polygon.cut` finds
exactly two hits, `cut` returns exactly two sub-polygons whose *signed*
areas (`Polygon.square`) sum exactly — in particular within any epsilon — to
the signed area of the original polygon; convexity is not needed.  (The
original claim fails without the two-hit proviso: a line through a vertex
produces more than two hits and `cut` then returns the single original
polygon — see the counterexample.) -/
theorem c8_cut_two_hits_area_additive (l : List Pt) (p1 p2 : Pt) (gap : ℚ)
    (hlen : 3 ≤ l.length) (e1 e2 : Nat) (r1 u1 r2 u2 : ℚ)
    (hh : cutHits l p1 p2 = [(e1, r1, u1), (e2, r2, u2)]) :
    ∃ h1 h2, cutQ l p1 p2 gap = [h1, h2] ∧
      squareQ h1 + squareQ h2 = squareQ l := by
  have hpw := cutHits_pairwise l p1 p2
  rw [hh] at hpw
  have he12 : e1 < e2 := by
    rw [List.pairwise_cons] at hpw
    exact hpw.1 (e2, r2, u2) (by simp)
  obtain ⟨he1len, hht1⟩ := cutHits_mem l p1 p2 (e1, r1, u1) (by rw [hh]; simp)
  obtain ⟨he2len, hht2⟩ := cutHits_mem l p1 p2 (e2, r2, u2) (by rw [hh]; simp)
  rw [hitTest, Option.bind_eq_some] at hht1 hht2
  obtain ⟨s1, hti1, hcond1⟩ := hht1
  obtain ⟨s2, hti2, hcond2⟩ := hht2
  have hs1e : s1 = (r1, u1) := by
    by_cases hc : 0 ≤ s1.2 ∧ s1.2 ≤ 1
    · rw [if_pos hc, Option.some.injEq] at hcond1
      exact hcond1
    · rw [if_neg hc] at hcond1
      exact Option.noConfusion hcond1
  have hs2e : s2 = (r2, u2) := by
    by_cases hc : 0 ≤ s2.2 ∧ s2.2 ≤ 1
    · rw [if_pos hc, Option.some.injEq] at hcond2
      exact hcond2
    · rw [if_neg hc] at hcond2
      exact Option.noConfusion hcond2
  rw [hs1e] at hti1
  rw [hs2e] at hti2
  have hspec1 := intersectLines_spec _ _ _ _ _ _ _ _ _ _ hti1
  have hspec2 := intersectLines_spec _ _ _ _ _ _ _ _ _ _ hti2
  have hmod1 : (e1 + 1) % l.length = e1 + 1 := Nat.mod_eq_of_lt (by omega)
  rw [hmod1] at hspec1
  -- the two cut points exactly as built by `cut`
  have hbr1 : cross2 ((l.take (e1 + 1)).getLastD (0, 0))
        (p1.1 + (p2.1 - p1.1) * r1, p1.2 + (p2.2 - p1.2) * r1) +
      cross2 (p1.1 + (p2.1 - p1.1) * r1, p1.2 + (p2.2 - p1.2) * r1)
        (((l.drop (e1 + 1)).take (e2 - e1)).headD (0, 0)) =
      cross2 ((l.take (e1 + 1)).getLastD (0, 0))
        (((l.drop (e1 + 1)).take (e2 - e1)).headD (0, 0)) := by
    rw [take_succ_getLastD l e1 (by omega),
      drop_take_headD l (e1 + 1) (e2 - e1) (by omega)]
    refine bracket_of_on_edge_line _ _ _ u1 ?_ ?_
    · show p1.1 + (p2.1 - p1.1) * r1 = _
      rw [mul_comm]
      exact hspec1.1.symm ▸ hspec1.1
    · show p1.2 + (p2.2 - p1.2) * r1 = _
      rw [mul_comm]
      exact hspec1.2
  have hbr2 : cross2 (((l.drop (e1 + 1)).take (e2 - e1)).getLastD (0, 0))
        (p1.1 + (p2.1 - p1.1) * r2, p1.2 + (p2.2 - p1.2) * r2) +
      cross2 (p1.1 + (p2.1 - p1.1) * r2, p1.2 + (p2.2 - p1.2) * r2)
        ((l.drop (e2 + 1) ++ l.take (e1 + 1)).headD (0, 0)) =
      cross2 (((l.drop (e1 + 1)).take (e2 - e1)).getLastD (0, 0))
        ((l.drop (e2 + 1) ++ l.take (e1 + 1)).headD (0, 0)) := by
    have hYlast : ((l.drop (e1 + 1)).take (e2 - e1)).getLastD (0, 0) =
        l.getD e2 (0, 0) := by
      rw [drop_take_getLastD l (e1 + 1) (e2 - e1) (by omega) (by omega)]
      have harith : e1 + 1 + (e2 - e1) - 1 = e2 := by omega
      rw [harith]
    have hZXhead : (l.drop (e2 + 1) ++ l.take (e1 + 1)).headD (0, 0) =
        l.getD ((e2 + 1) % l.length) (0, 0) := by
      by_cases hz : e2 + 1 < l.length
      · have hZne : l.drop (e2 + 1) ≠ [] :=
          List.length_pos.mp (by rw [List.length_drop]; omega)
        rw [headD_append_left _ _ hZne, drop_headD, Nat.mod_eq_of_lt hz]
      · have hZnil : l.drop (e2 + 1) = [] := List.drop_eq_nil_of_le (by omega)
        have hzlen : e2 + 1 = l.length := by omega
        rw [hZnil, List.nil_append, ← hzlen, Nat.mod_self]
        exact take_headD l (e1 + 1) (by omega)
    rw [hYlast, hZXhead]
    refine bracket_of_on_edge_line _ _ _ u2 ?_ ?_
    · show p1.1 + (p2.1 - p1.1) * r2 = _
      rw [mul_comm]
      exact hspec2.1
    · show p1.2 + (p2.2 - p1.2) * r2 = _
      rw [mul_comm]
      exact hspec2.2
  -- nonemptiness
  have hXne : l.take (e1 + 1) ≠ [] :=
    List.length_pos.mp (by rw [List.length_take]; omega)
  have hYne : (l.drop (e1 + 1)).take (e2 - e1) ≠ [] :=
    List.length_pos.mp (by rw [List.length_take, List.length_drop]; omega)
  -- shoelace additivity, instantiated at the exact take/drop decomposition
  have hsum := cyclicSum_split (l.take (e1 + 1)) ((l.drop (e1 + 1)).take (e2 - e1))
    (l.drop (e2 + 1)) (p1.1 + (p2.1 - p1.1) * r1, p1.2 + (p2.2 - p1.2) * r1)
    (p1.1 + (p2.1 - p1.1) * r2, p1.2 + (p2.2 - p1.2) * r2) hXne hYne hbr1 hbr2
  have hdecomp : l.take (e1 + 1) ++ (l.drop (e1 + 1)).take (e2 - e1) ++
      l.drop (e2 + 1) = l := by
    rw [List.append_assoc]
    have hdd : l.drop (e2 + 1) = ((l.drop (e1 + 1)).drop (e2 - e1)) := by
      rw [List.drop_drop]
      congr 1
      omega
    rw [hdd, List.take_append_drop, List.take_append_drop]
  rw [hdecomp] at hsum
  -- sub-polygon lengths (≥ 3, so `square` takes the shoelace branch)
  have hlen1 : ¬((p1.1 + (p2.1 - p1.1) * r1, p1.2 + (p2.2 - p1.2) * r1) ::
      ((l.drop (e1 + 1)).take (e2 - e1) ++
        [(p1.1 + (p2.1 - p1.1) * r2, p1.2 + (p2.2 - p1.2) * r2)])).length < 3 := by
    rw [List.length_cons, List.length_append, List.length_take, List.length_drop]
    simp only [List.length_singleton]
    omega
  have hlen2 : ¬((p1.1 + (p2.1 - p1.1) * r2, p1.2 + (p2.2 - p1.2) * r2) ::
      ((l.drop (e2 + 1) ++ l.take (e1 + 1)) ++
        [(p1.1 + (p2.1 - p1.1) * r1, p1.2 + (p2.2 - p1.2) * r1)])).length < 3 := by
    rw [List.length_cons, List.length_append, List.length_append,
      List.length_take, List.length_drop]
    simp only [List.length_singleton]
    omega
  have hsq : squareQ ((p1.1 + (p2.1 - p1.1) * r1, p1.2 + (p2.2 - p1.2) * r1) ::
        ((l.drop (e1 + 1)).take (e2 - e1) ++
          [(p1.1 + (p2.1 - p1.1) * r2, p1.2 + (p2.2 - p1.2) * r2)])) +
      squareQ ((p1.1 + (p2.1 - p1.1) * r2, p1.2 + (p2.2 - p1.2) * r2) ::
        ((l.drop (e2 + 1) ++ l.take (e1 + 1)) ++
          [(p1.1 + (p2.1 - p1.1) * r1, p1.2 + (p2.2 - p1.2) * r1)])) = squareQ l := by
    rw [squareQ, squareQ, squareQ, if_neg hlen1, if_neg hlen2, if_neg (by omega),
      div_add_div_same, hsum]
  -- assemble the cut result
  rw [cutQ, hh]
  by_cases hc : cross2 (p2.1 - p1.1, p2.2 - p1.2)
      ((l.getD ((e1 + 1) % l.length) (0, 0)).1 - (l.getD e1 (0, 0)).1,
       (l.getD ((e1 + 1) % l.length) (0, 0)).2 - (l.getD e1 (0, 0)).2) > 0
  · refine ⟨_, _, if_pos hc, hsq⟩
  · refine ⟨_, _, if_neg hc, ?_⟩
    rw [add_comm]
    exact hsq

/-- A square of side 2 (counter-clockwise): a convex polygon with centroid
`(1, 2)`. -/
def convSq : List Pt := [(0, 1), (2, 1), (2, 3), (0, 3)]

theorem sq_hit0 : hitTest convSq (0, 1) (2, 3) 0 = some (0, 0) := by
  rw [hitTest]
  norm_num [convSq, intersectLines]

theorem sq_hit1 : hitTest convSq (0, 1) (2, 3) 1 = some (1, 1) := by
  rw [hitTest]
  norm_num [convSq, intersectLines]

theorem sq_hit2 : hitTest convSq (0, 1) (2, 3) 2 = some (1, 0) := by
  rw [hitTest]
  norm_num [convSq, intersectLines]

theorem sq_hit3 : hitTest convSq (0, 1) (2, 3) 3 = some (0, 1) := by
  rw [hitTest]
  norm_num [convSq, intersectLines]

theorem sq_cutHits : cutHits convSq (0, 1) (2, 3) =
    [(0, 0, 0), (1, 1, 1), (2, 1, 0), (3, 0, 1)] := by
  rw [cutHits, show List.range convSq.length = [0, 1, 2, 3] from rfl]
  simp [List.filterMap_cons, sq_hit0, sq_hit1, sq_hit2, sq_hit3]

/-- C8, counterexample.  The diagonal from `(0,1)` to `(2,3)` passes
through the centroid `(1, 2)` of the convex square `convSq`, but it crosses
the boundary *at two vertices*, so each of those vertices is registered as a
hit on both of its incident edges: the scan counts 4 intersections, not 2,
and `cut` returns the original polygon as a single element — not two
sub-polygons whose areas sum to the original. -/
theorem c8_diagonal_cut_returns_single_polygon :
    cutQ convSq (0, 1) (2, 3) 0 = [convSq] ∧
      (cutQ convSq (0, 1) (2, 3) 0).length ≠ 2 := by
  have h : cutQ convSq (0, 1) (2, 3) 0 = [convSq] := by
    rw [cutQ, sq_cutHits]
  exact ⟨h, by rw [h]; simp⟩

/-- C8, witness for the amended theorem: the vertical chord of the
rectangle block meets exactly two edges, and the two halves' signed areas
sum to the rectangle's signed area. -/
theorem c8_witness :
    ∃ h1 h2, cutQ rectR (0, -1) (0, 3) 0 = [h1, h2] ∧
      squareQ h1 + squareQ h2 = squareQ rectR :=
  c8_cut_two_hits_area_additive rectR (0, -1) (0, 3) 0 (by norm_num [rectR])
    0 2 0 (1/2) (1/2) (1/2) rect_cutHits

/-! ## `Random.int` and gate selection — `CurtainWall.buildGates`
(`src/src/generator/CurtainWall.ts`, lines 76–139; `src/src/main.ts`)

`Random.int(min, max) = Math.floor(min + float() * (max - min))`, a uniform
integer in `[min, max)`.  Gate placement picks
`index = Random.int(0, entrances.length - 1)` — note the `- 1`: with the
exclusive upper bound this draws from `[0, length - 1)`, so the *last*
remaining candidate can never be selected (the dead
`else if (index === entrances.length - 1)` removal branch below the call
shows the author expected the last index to be reachable). -/

/-- Embeds `Random.int(min, max)` with `u` the `float()` draw in `[0, 1)`. -/
def randomIntQ (u : ℚ) (mn mx : ℚ) : Int := ⌊mn + u * (mx - mn)⌋

/-- The gate-selection index: `Random.int(0, entrances.length - 1)`. -/
def gatePickIndex (u : ℚ) (len : Nat) : Int := randomIntQ u 0 ((len : ℚ) - 1)

/-- C10, theorem.  Whenever at least two candidate entrances remain, the
selection index lies in `[0, len - 2]`: the last candidate in the list is
chosen with probability 0, so the pick is *not* uniform over the remaining
candidates (the claim/spec intends `Random.int(0, entrances.length)`). -/
theorem c10_last_gate_candidate_never_picked (u : ℚ) (h0 : 0 ≤ u) (h1 : u < 1)
    (len : Nat) (hlen : 2 ≤ len) :
    0 ≤ gatePickIndex u len ∧ gatePickIndex u len < (len : Int) - 1 := by
  have hpos : (0 : ℚ) < (len : ℚ) - 1 := by
    have : (2 : ℚ) ≤ (len : ℚ) := by exact_mod_cast hlen
    linarith
  constructor
  · apply Int.le_floor.mpr
    push_cast
    nlinarith
  · rw [gatePickIndex, randomIntQ]
    apply Int.floor_lt.mpr
    push_cast
    nlinarith

/-- C10, witness: with two remaining candidates and draw `u = 1/2`, the
selection index is 0 — the second candidate is unreachable. -/
theorem c10_witness :
    (0 : ℚ) ≤ 1/2 ∧ (1/2 : ℚ) < 1 ∧ (2 : Nat) ≤ 2 ∧
      0 ≤ gatePickIndex (1/2) 2 ∧ gatePickIndex (1/2) 2 < (2 : Int) - 1 :=
  ⟨by norm_num, by norm_num, le_refl 2,
    (c10_last_gate_candidate_never_picked (1/2) (by norm_num) (by norm_num) 2
      (le_refl 2)).1,
    (c10_last_gate_candidate_never_picked (1/2) (by norm_num) (by norm_num) 2
      (le_refl 2)).2⟩

/-! ## `Model.createWards` — cityRadius
(`src/src/generator/Model.ts`, lines 556–570)

After ward assignment, `createWards` sets `cityRadius = 0` and then, for
every patch with `withinCity`, folds `cityRadius = max(cityRadius,
v.length())` over the patch's shape vertices.  `v.length()` is the distance
from the origin (`Math.sqrt` of the coordinate squares); since the square
root is not rational it is kept as an abstract vertex-length function
`len` — the claim is about the fold structure, which is independent of the
metric's values. -/

structure MPatch (V : Type) where
  withinCity : Bool
  shape : List V

/-- The cityRadius loop of `createWards`. -/
def calcCityRadius {V : Type} (ps : List (MPatch V)) (len : V → ℚ) : ℚ :=
  ps.foldl
    (fun r p =>
      if p.withinCity then p.shape.foldl (fun r' v => max r' (len v)) r else r) 0

theorem foldl_max_init_le {V : Type} (f : V → ℚ) :
    ∀ (xs : List V) (a : ℚ), a ≤ xs.foldl (fun r v => max r (f v)) a := by
  intro xs
  induction xs with
  | nil => intro a; exact le_refl a
  | cons x xs ih =>
    intro a
    exact le_trans (le_max_left a (f x)) (ih (max a (f x)))

theorem foldl_max_le_of_mem {V : Type} (f : V → ℚ) :
    ∀ (xs : List V) (a : ℚ) (v : V), v ∈ xs →
      f v ≤ xs.foldl (fun r v => max r (f v)) a := by
  intro xs
  induction xs with
  | nil => intro a v hv; cases hv
  | cons x xs ih =>
    intro a v hv
    rcases List.mem_cons.mp hv with h | h
    · subst h
      exact le_trans (le_max_right a (f v)) (foldl_max_init_le f xs (max a (f v)))
    · exact ih (max a (f x)) v h

theorem foldl_max_eq_init_or_mem {V : Type} (f : V → ℚ) :
    ∀ (xs : List V) (a : ℚ),
      xs.foldl (fun r v => max r (f v)) a = a ∨
        ∃ v ∈ xs, xs.foldl (fun r v => max r (f v)) a = f v := by
  intro xs
  induction xs with
  | nil => intro a; exact Or.inl rfl
  | cons x xs ih =>
    intro a
    rcases ih (max a (f x)) with h | ⟨v, hv, h⟩
    · rcases max_choice a (f x) with hm | hm
      · exact Or.inl (by rw [List.foldl_cons, h, hm])
      · exact Or.inr ⟨x, List.mem_cons_self x xs, by rw [List.foldl_cons, h, hm]⟩
    · exact Or.inr ⟨v, List.mem_cons_of_mem x hv, by rw [List.foldl_cons, h]⟩

theorem patch_step_le {V : Type} (len : V → ℚ) (a : ℚ) (p : MPatch V) :
    a ≤ (if p.withinCity then p.shape.foldl (fun r' v => max r' (len v)) a else a) := by
  by_cases h : p.withinCity
  · rw [if_pos h]
    exact foldl_max_init_le len p.shape a
  · rw [if_neg h]

theorem patch_foldl_init_le {V : Type} (len : V → ℚ) :
    ∀ (ps : List (MPatch V)) (a : ℚ),
      a ≤ ps.foldl
        (fun r p =>
          if p.withinCity then p.shape.foldl (fun r' v => max r' (len v)) r else r)
        a := by
  intro ps
  induction ps with
  | nil => intro a; exact le_refl a
  | cons p ps ih =>
    intro a
    exact le_trans (patch_step_le len a p) (ih _)

/-- C5, theorem.  The cityRadius computed by `createWards` is an upper
bound of `len v` over every vertex `v` of every within-city patch, and it is
either 0 (its initial value, e.g. when there is no within-city vertex) or
exactly `len v` for some within-city vertex `v` — i.e. it equals the maximum
vertex distance from the origin over the within-city patches. -/
theorem c5_cityRadius_is_max {V : Type} (ps : List (MPatch V)) (len : V → ℚ) :
    (∀ p, p ∈ ps → p.withinCity = true → ∀ v, v ∈ p.shape →
      len v ≤ calcCityRadius ps len) ∧
    (calcCityRadius ps len = 0 ∨
      ∃ p, p ∈ ps ∧ p.withinCity = true ∧ ∃ v, v ∈ p.shape ∧
        calcCityRadius ps len = len v) := by
  constructor
  · rw [calcCityRadius]
    generalize (0 : ℚ) = a
    induction ps generalizing a with
    | nil => intro p hp; cases hp
    | cons q ps ih =>
      intro p hp hc v hv
      rcases List.mem_cons.mp hp with h | h
      · subst h
        rw [List.foldl_cons]
        refine le_trans ?_ (patch_foldl_init_le len ps _)
        rw [if_pos hc]
        exact foldl_max_le_of_mem len p.shape a v hv
      · rw [List.foldl_cons]
        exact ih _ p h hc v hv
  · rw [calcCityRadius]
    generalize (0 : ℚ) = a
    induction ps generalizing a with
    | nil => exact Or.inl rfl
    | cons q ps ih =>
      rw [List.foldl_cons]
      by_cases hq : q.withinCity
      · rw [if_pos hq]
        rcases ih (q.shape.foldl (fun r' v => max r' (len v)) a) with
          h | ⟨p, hp, hc, v, hv, h⟩
        · rcases foldl_max_eq_init_or_mem len q.shape a with h2 | ⟨v, hv, h2⟩
          · exact Or.inl (by rw [h, h2])
          · exact Or.inr ⟨q, List.mem_cons_self q ps, hq, v, hv, by rw [h, h2]⟩
        · exact Or.inr ⟨p, List.mem_cons_of_mem q hp, hc, v, hv, h⟩
      · rw [if_neg hq]
        rcases ih a with h | ⟨p, hp, hc, v, hv, h⟩
        · exact Or.inl h
        · exact Or.inr ⟨p, List.mem_cons_of_mem q hp, hc, v, hv, h⟩

/-- C5, witness: a concrete model with one within-city patch (vertex
lengths 3 and 5) and one countryside patch (vertex length 100); the theorem
bounds the within-city vertex of length 5 by the computed radius. -/
theorem c5_witness :
    (5 : ℚ) ≤ calcCityRadius
      [⟨true, [(3 : ℚ), 5]⟩, ⟨false, [(100 : ℚ)]⟩] id :=
  (c5_cityRadius_is_max [⟨true, [(3 : ℚ), 5]⟩, ⟨false, [(100 : ℚ)]⟩] id).1
    ⟨true, [(3 : ℚ), 5]⟩ (List.mem_cons_self _ _) rfl 5
    (by simp)

/-! ## Vertex object identity — `Polygon` constructor / `Patch.fromRegion`
(`src/unnamed/part_011`, lines 14–22; `src/src/generator/Patch.ts`)

JavaScript `Point` objects are compared by `===` in `Polygon.contains`
(`indexOf`), `patchByVertex`, `optimizeJunctions` and
`CurtainWall.buildGates`.  Object identity is modelled by a numeric id
carried by each point; allocation hands out fresh ids from a counter.  The
`Polygon` constructor *clones* every vertex
(`for (const v of vertices) this.push(v.clone())`), i.e. allocates a fresh
object per vertex; `Patch.fromRegion`/`new Patch(vertices)` build their
shape through this constructor. -/

structure OPt where
  oid : Nat
  x : ℚ
  y : ℚ

/-- The clone loop of the `Polygon` constructor: each input vertex is
replaced by a fresh object (fresh id from the allocation counter) with the
same coordinates.  Returns the new vertex list and the next counter. -/
def cloneVerts : List OPt → Nat → List OPt × Nat
  | [], ctr => ([], ctr)
  | v :: vs, ctr =>
    let rest := cloneVerts vs (ctr + 1)
    (⟨ctr, v.x, v.y⟩ :: rest.1, rest.2)

/-- Embeds `Polygon.contains(p) = indexOf(p) !== -1`: identity (`===`) membership. -/
def containsObj (shape : List OPt) (p : OPt) : Bool :=
  shape.any (fun v => v.oid == p.oid)

theorem cloneVerts_ctr : ∀ (vs : List OPt) (ctr : Nat),
    (cloneVerts vs ctr).2 = ctr + vs.length := by
  intro vs
  induction vs with
  | nil => intro ctr; rfl
  | cons v vs ih =>
    intro ctr
    show (cloneVerts vs (ctr + 1)).2 = _
    rw [ih (ctr + 1), List.length_cons]
    omega

theorem cloneVerts_id_bounds : ∀ (vs : List OPt) (ctr : Nat) (w : OPt),
    w ∈ (cloneVerts vs ctr).1 → ctr ≤ w.oid ∧ w.oid < ctr + vs.length := by
  intro vs
  induction vs with
  | nil => intro ctr w hw; cases hw
  | cons v vs ih =>
    intro ctr w hw
    rcases List.mem_cons.mp hw with h | h
    · subst h
      simp only [List.length_cons]
      omega
    · have := ih (ctr + 1) w h
      simp only [List.length_cons]
      omega

/-- C2, theorem.  Two patches built one after the other through the
cloning `Polygon` constructor share *no* vertex object — even when their
input vertex lists contain the very same object (equal id): every vertex of
the second shape has an id strictly above every id of the first shape, and
identity-based `contains` of one shape on a vertex of the other is `false`.
Consequently a boundary vertex shared *by value* between two adjacent
patches is never the same object, `patchByVertex` never sees a vertex in two
patches, the `count > 1` entrance test of `CurtainWall.buildGates` can never
succeed for a multi-patch wall, and `optimizeJunctions` never propagates a
merge to a neighbouring patch. -/
theorem c2_polygon_constructor_clones_break_shared_identity
    (vs1 vs2 : List OPt) (ctr : Nat) :
    (∀ v, v ∈ (cloneVerts vs1 ctr).1 →
      ∀ w, w ∈ (cloneVerts vs2 (cloneVerts vs1 ctr).2).1 → v.oid ≠ w.oid) ∧
    (∀ v, v ∈ (cloneVerts vs1 ctr).1 →
      containsObj (cloneVerts vs2 (cloneVerts vs1 ctr).2).1 v = false) := by
  have key : ∀ v, v ∈ (cloneVerts vs1 ctr).1 →
      ∀ w, w ∈ (cloneVerts vs2 (cloneVerts vs1 ctr).2).1 → v.oid ≠ w.oid := by
    intro v hv w hw
    have h1 := cloneVerts_id_bounds vs1 ctr v hv
    have h2 := cloneVerts_id_bounds vs2 _ w hw
    rw [cloneVerts_ctr vs1 ctr] at h2
    omega
  refine ⟨key, ?_⟩
  intro v hv
  rw [containsObj]
  rw [List.any_eq_false]
  intro w hw
  simp only [beq_iff_eq]
  exact fun h => key v hv w hw h.symm

/-- C2, witness.  The shared vertex object `⟨7, 1, 2⟩` appears in both
input regions, yet the two constructed patch shapes have disjoint object
ids: the first cloned vertex of patch 1 differs from every vertex of
patch 2, and identity-`contains` fails. -/
theorem c2_witness :
    (⟨10, 1, 2⟩ : OPt).oid ≠ (⟨12, 1, 2⟩ : OPt).oid ∧
      containsObj
        (cloneVerts [⟨7, 1, 2⟩, ⟨8, 3, 4⟩] (cloneVerts [⟨6, 0, 5⟩, ⟨7, 1, 2⟩] 10).2).1
        ⟨10, 0, 5⟩ = false :=
  ⟨(c2_polygon_constructor_clones_break_shared_identity
      [⟨6, 0, 5⟩, ⟨7, 1, 2⟩] [⟨7, 1, 2⟩, ⟨8, 3, 4⟩] 10).1
      ⟨10, 0, 5⟩ (by rw [show (cloneVerts [⟨6, 0, 5⟩, ⟨7, 1, 2⟩] 10).1 =
          [⟨10, 0, 5⟩, ⟨11, 1, 2⟩] from rfl]; exact List.mem_cons_self _ _)
      ⟨12, 1, 2⟩ (by rw [show (cloneVerts [⟨7, 1, 2⟩, ⟨8, 3, 4⟩]
          (cloneVerts [⟨6, 0, 5⟩, ⟨7, 1, 2⟩] 10).2).1 =
          [⟨12, 1, 2⟩, ⟨13, 3, 4⟩] from rfl]; exact List.mem_cons_self _ _),
    (c2_polygon_constructor_clones_break_shared_identity
      [⟨6, 0, 5⟩, ⟨7, 1, 2⟩] [⟨7, 1, 2⟩, ⟨8, 3, 4⟩] 10).2
      ⟨10, 0, 5⟩ (by rw [show (cloneVerts [⟨6, 0, 5⟩, ⟨7, 1, 2⟩] 10).1 =
          [⟨10, 0, 5⟩, ⟨11, 1, 2⟩] from rfl]; exact List.mem_cons_self _ _)⟩

/-! ## Pathfinder — `Graph.aStar` (`src/unnamed/part_012`, lines 82–154)

Nodes are numbered; the graph is an adjacency list preserving the JS `Map`
insertion order.  Scores live in `ℚ ∪ {Infinity}`.  Crucially, the source
reads every stored score through `map.get(node) || Infinity`: in JavaScript
`0` is falsy, so the *start node's stored score 0 is read back as
`Infinity`* — `jsOr` reproduces this.  `fScore` is written with exactly the
same values as `gScore` everywhere (no heuristic term). -/

inductive JVal where
  | fin : ℚ → JVal
  | inf : JVal
deriving DecidableEq

/-- Embeds `score + distance` (`Infinity + d = Infinity`). -/
def JVal.addQ : JVal → ℚ → JVal
  | .inf, _ => .inf
  | .fin a, d => .fin (a + d)

/-- Strict comparison `<` on scores. -/
def JVal.blt : JVal → JVal → Bool
  | .inf, _ => false
  | .fin _, .inf => true
  | .fin a, .fin b => decide (a < b)

/-- Comparison `≤` on scores. -/
def JVal.ble : JVal → JVal → Bool
  | _, .inf => true
  | .inf, .fin _ => false
  | .fin a, .fin b => decide (a ≤ b)

def JVal.isZero : JVal → Bool
  | .fin a => decide (a = 0)
  | .inf => false

/-- Embeds `map.get(k) || Infinity`: `undefined` (absent) and the falsy `0` both
give `Infinity`. -/
def jsOr : Option JVal → JVal
  | none => .inf
  | some v => if v.isZero then .inf else v

/-- The `for` scan that picks the open node with the lowest `fScore`
(first-found wins on ties; starts from `openSet[0]`). -/
def pickLoop (f : List (Nat × JVal)) : List Nat → Nat → JVal → Nat
  | [], cur, _ => cur
  | n :: rest, cur, low =>
    if (jsOr (f.lookup n)).blt low then pickLoop f rest n (jsOr (f.lookup n))
    else pickLoop f rest cur low

structure AState where
  closed : List Nat
  openS : List Nat
  cameFrom : List (Nat × Nat)
  g : List (Nat × JVal)
  f : List (Nat × JVal)

/-- The neighbour loop of one `aStar` iteration, in link order. -/
def processNeighbors (curScore : JVal) (cur : Nat) (links : List (Nat × ℚ))
    (st : AState) : AState :=
  links.foldl
    (fun st nb =>
      if st.closed.contains nb.1 then st
      else
        let score := curScore.addQ nb.2
        if st.openS.contains nb.1 then
          if (jsOr (st.g.lookup nb.1)).ble score then st
          else
            { st with
              cameFrom := (nb.1, cur) :: st.cameFrom
              g := (nb.1, score) :: st.g
              f := (nb.1, score) :: st.f }
        else
          { st with
            openS := st.openS ++ [nb.1]
            cameFrom := (nb.1, cur) :: st.cameFrom
            g := (nb.1, score) :: st.g
            f := (nb.1, score) :: st.f })
    st

/-- Embeds `buildPath`: walk `cameFrom` back from the goal (fuel-bounded). -/
def buildPathM (cf : List (Nat × Nat)) : Nat → Nat → List Nat → List Nat
  | 0, cur, acc => cur :: acc
  | fuel + 1, cur, acc =>
    match cf.lookup cur with
    | some prev => buildPathM cf fuel prev (cur :: acc)
    | none => cur :: acc

/-- The main `aStar` loop (fuel-bounded; `none` covers both "no path" and
fuel exhaustion, which cannot occur at the fuel used in the theorems). -/
def aStarLoop (graph : List (List (Nat × ℚ))) (goal : Nat) :
    Nat → AState → Option (List Nat)
  | 0, _ => none
  | fuel + 1, st =>
    match st.openS with
    | [] => none
    | o1 :: orest =>
      let cur := pickLoop st.f orest o1 (jsOr (st.f.lookup o1))
      if cur = goal then some (buildPathM st.cameFrom (fuel + 1) cur [])
      else
        let st1 :=
          { st with
            openS := st.openS.erase cur
            closed := st.closed ++ [cur] }
        let curScore := jsOr (st1.g.lookup cur)
        let st2 := processNeighbors curScore cur (graph.getD cur []) st1
        aStarLoop graph goal fuel st2

/-- Embeds `Graph.aStar(start, goal, exclude)`. -/
def aStarM (graph : List (List (Nat × ℚ))) (start goal : Nat)
    (exclude : List Nat) (fuel : Nat) : Option (List Nat) :=
  aStarLoop graph goal fuel
    ⟨exclude, [start], [], [(start, .fin 0)], [(start, .fin 0)]⟩

/-- Embeds `Graph.calculatePrice`: sum of link weights along a path; `none` models
the `NaN` returned on a missing link. -/
def calcPriceM (graph : List (List (Nat × ℚ))) : List Nat → Option ℚ
  | [] => some 0
  | [_] => some 0
  | a :: b :: t =>
    match (graph.getD a []).lookup b, calcPriceM graph (b :: t) with
    | some w, some rest => some (w + rest)
    | _, _ => none

/-- Triangle graph: node 0 links to 1 (weight 1) and 2 (weight 100); node 1
links to 0 and 2 (weight 1 each); node 2 links back.  The weighted shortest
path from 0 to 2 is `0 → 1 → 2` with cost 2. -/
def triGraph : List (List (Nat × ℚ)) :=
  [[(1, 1), (2, 100)], [(0, 1), (2, 1)], [(0, 100), (1, 1)]]

/-- C9, theorem.  Because every score is read through `|| Infinity` and
the start's stored score is the falsy `0`, all computed scores are
`Infinity`; the "lowest fScore" selection always keeps `openSet[0]` and the
search degenerates to FIFO breadth-first order.  On `triGraph` it returns
the direct hop `[0, 2]` of cost 100 instead of the minimal-cost path
`[0, 1, 2]` of cost 2 — the search is neither Dijkstra nor cost-minimal,
refuting the claim; the spec's intent (score = pure path cost) is defeated
by the `|| Infinity` slip. -/
theorem c9_astar_is_bfs_not_dijkstra :
    aStarM triGraph 0 2 [] 10 = some [0, 2] ∧
      calcPriceM triGraph [0, 2] = some 100 ∧
      calcPriceM triGraph [0, 1, 2] = some 2 ∧ (2 : ℚ) < 100 := by
  refine ⟨?_, ?_, ?_, by norm_num⟩
  · rfl
  · norm_num [calcPriceM, triGraph, List.lookup,
      show ((2 : Nat) == 1) = false from rfl]
  · norm_num [calcPriceM, triGraph, List.lookup,
      show ((2 : Nat) == 1) = false from rfl,
      show ((2 : Nat) == 0) = false from rfl]

/-! ## Recursive block subdivision — `Ward.createAlleys` / `Cutter.bisect`
(`src/unnamed/part_008`, lines 188–243; `src/unnamed/part_003`)

`createAlleys` finds the longest edge (strictly-greater comparison, first
edge wins ties; comparing squared lengths selects the same edge as the
source's `Point.distance`), draws a ratio and an angle, bisects through the
point at `ratio` along that edge with the perpendicular (rotated by `angle`)
direction, and recurses on each half whose area is not yet below the
threshold.  `Math.cos`, `Math.sin`, `Math.pow(2, ·)` and `Math.PI` are
abstract parameters (`JsMath`); the RNG is an arbitrary stream
`σ : ℕ → ℚ` of `Random.float()` values with an explicit cursor.  The
recursion has no structural termination argument, so it is embedded with a
fuel parameter: `none` means the computation did not finish within `fuel`
nested recursion levels. -/

structure JsMath where
  cosQ : ℚ → ℚ
  sinQ : ℚ → ℚ
  pow2 : ℚ → ℚ
  piQ : ℚ

/-- Squared segment length (the source compares `Point.distance`, i.e. the
square root; the strict comparisons select the same edge). -/
def distSq (a b : Pt) : ℚ := (b.1 - a.1) ^ 2 + (b.2 - a.2) ^ 2

/-- Index of the first strictly-longest edge (`createAlleys`' `forEdge`
scan; the source starts from length `-1`, so the first edge is the initial
candidate). -/
def longestEdgeIdx (l : List Pt) : Nat :=
  (List.range l.length).foldl
    (fun best i =>
      if distSq (l.getD best (0, 0)) (l.getD ((best + 1) % l.length) (0, 0)) <
          distSq (l.getD i (0, 0)) (l.getD ((i + 1) % l.length) (0, 0))
      then i else best) 0

/-- Embeds `Cutter.bisect(poly, vertex, ratio, angle, gap)`: cut through the point
at `ratio` along the edge starting at `vertex`, in the edge direction
rotated by `angle` and then by 90°. -/
def bisectQ (m : JsMath) (l : List Pt) (vIdx : Nat) (ratio angle gap : ℚ) :
    List (List Pt) :=
  let v := l.getD vIdx (0, 0)
  let nx := l.getD ((vIdx + 1) % l.length) (0, 0)
  let p1 : Pt := (v.1 + (nx.1 - v.1) * ratio, v.2 + (nx.2 - v.2) * ratio)
  let dx := nx.1 - v.1
  let dy := nx.2 - v.2
  let cosB := m.cosQ angle
  let sinB := m.sinQ angle
  let vx := dx * cosB - dy * sinB
  let vy := dy * cosB + dx * sinB
  cutQ l p1 (p1.1 - vy, p1.2 + vx) gap

/-- Embeds `Ward.createAlleys(p, minSq, gridChaos, sizeChaos, emptyProb, split)`
with a fuel bound on the recursion depth.  One draw for the cut ratio, one
for the angle; per half: one draw for the size jitter, then either one
`Random.bool(emptyProb)` draw (base case) or two draws for the `halfSplit`
flag before recursing.  `minSq / 0` in JavaScript is `Infinity`, making the
`>` comparison false — the `u1 * u2 = 0` guard reproduces that. -/
def createAlleysF (m : JsMath) (σ : Nat → ℚ) :
    Nat → List Pt → ℚ → ℚ → ℚ → ℚ → Bool → Nat → Option (List (List Pt) × Nat)
  | 0, _, _, _, _, _, _, _ => none
  | fuel + 1, p, minSq, gridChaos, sizeChaos, emptyProb, split, k =>
    if p.length = 0 then some ([p], k)
    else
      let vIdx := longestEdgeIdx p
      let spread := 8/10 * gridChaos
      let ratio := (1 - spread)/2 + σ k * spread
      let angleSpread := m.piQ / 6 * gridChaos *
        (if squareQ p < minSq * 4 then 0 else 1)
      let angle := (σ (k + 1) - 1/2) * angleSpread
      let halves := bisectQ m p vIdx ratio angle (if split then 6/10 else 0)
      halves.foldl
        (fun acc half =>
          match acc with
          | none => none
          | some (bs, k') =>
            let sv := m.pow2 (4 * sizeChaos * (σ k' - 1/2))
            if squareQ half < minSq * sv then
              if σ (k' + 1) < emptyProb then some (bs, k' + 2)
              else some (bs ++ [half], k' + 2)
            else
              let u1 := σ (k' + 1)
              let u2 := σ (k' + 2)
              let halfSplit := if u1 * u2 = 0 then false
                else decide (minSq / (u1 * u2) < squareQ half)
              match createAlleysF m σ fuel half minSq gridChaos sizeChaos
                  emptyProb halfSplit (k' + 3) with
              | none => none
              | some (sub, k'') => some (bs ++ sub, k''))
        (some ([], k + 2))
termination_by fuel _ _ _ _ _ _ _ => fuel

/-- An isoceles triangle block: longest edge at the bottom (squared length
16 against 13 for the two sides), area 6.  The deterministic bisection line
(`gridChaos = 0` forces ratio ½ and angle 0) is the vertical through the
bottom edge's midpoint `(0, 1)` — and it passes exactly through the apex
`(0, 4)`. -/
def triT : List Pt := [(-2, 1), (2, 1), (0, 4)]

theorem tri_longest : longestEdgeIdx triT = 0 := by
  rw [longestEdgeIdx, show List.range triT.length = [0, 1, 2] from rfl]
  norm_num [distSq, triT]

theorem tri_hit0 : hitTest triT (0, 1) (0, 5) 0 = some (0, 1/2) := by
  rw [hitTest]
  norm_num [triT, intersectLines]

theorem tri_hit1 : hitTest triT (0, 1) (0, 5) 1 = some (3/4, 1) := by
  rw [hitTest]
  norm_num [triT, intersectLines]

theorem tri_hit2 : hitTest triT (0, 1) (0, 5) 2 = some (3/4, 0) := by
  rw [hitTest]
  norm_num [triT, intersectLines]

theorem tri_cutHits : cutHits triT (0, 1) (0, 5) =
    [(0, 0, 1/2), (1, 3/4, 1), (2, 3/4, 0)] := by
  rw [cutHits, show List.range triT.length = [0, 1, 2] from rfl]
  simp [List.filterMap_cons, tri_hit0, tri_hit1, tri_hit2]

/-- The apex vertex counts as a hit on both of its incident edges, so the
scan sees 3 intersections and `cut` returns the triangle unchanged. -/
theorem tri_cut (gap : ℚ) : cutQ triT (0, 1) (0, 5) gap = [triT] := by
  rw [cutQ, tri_cutHits]

theorem tri_bisect (m : JsMath) (hcos : m.cosQ 0 = 1) (hsin : m.sinQ 0 = 0)
    (gap : ℚ) : bisectQ m triT 0 (1/2) 0 gap = [triT] := by
  rw [bisectQ]
  simp only [hcos, hsin]
  norm_num [triT]
  exact tri_cut gap

theorem tri_square : squareQ triT = 6 := by
  norm_num [squareQ, cyclicSum, pathSum, cross2, triT, List.getLastD]

/-- C7, theorem (evaluating the code at the failing input).  With
`minSq = 1` and `gridChaos = sizeChaos = 0` on the triangle `triT`, the cut
ratio is exactly ½ and the cut angle exactly 0 *for every RNG stream*, the
bisection line passes through the apex, `cut` returns the polygon unchanged,
the size test `6 < 1` fails, and `createAlleys` recurses on the *same*
polygon forever: for every fuel bound the computation fails to reach a base
case.  The only facts needed about the JS math library are
`cos 0 = 1`, `sin 0 = 0`, `2^0 = 1`. -/
theorem c7_createAlleys_diverges_on_triangle (m : JsMath) (σ : Nat → ℚ)
    (eP : ℚ) (hcos : m.cosQ 0 = 1) (hsin : m.sinQ 0 = 0) (hpow : m.pow2 0 = 1) :
    ∀ fuel k split, createAlleysF m σ fuel triT 1 0 0 eP split k = none := by
  intro fuel
  induction fuel with
  | zero => intro k split; simp [createAlleysF]
  | succ fuel ih =>
    intro k split
    have hne : ¬(triT.length = 0) := by norm_num [triT]
    have hratio : (1 - 8/10 * (0 : ℚ))/2 + σ k * (8/10 * 0) = 1/2 := by ring
    have hangle : (σ (k + 1) - 1/2) *
        (m.piQ / 6 * 0 * (if squareQ triT < 1 * 4 then (0 : ℚ) else 1)) = 0 := by
      ring
    rw [createAlleysF, if_neg hne]
    simp only [tri_longest]
    rw [hratio, hangle, tri_bisect m hcos hsin]
    rw [List.foldl_cons, List.foldl_nil]
    have hsv : m.pow2 (4 * 0 * (σ (k + 2) - 1/2)) = 1 := by
      rw [show (4 : ℚ) * 0 * (σ (k + 2) - 1/2) = 0 from by ring, hpow]
    simp only [hsv]
    rw [if_neg (by rw [tri_square]; norm_num), ih]

/-- Witness for the non-termination theorem: a concrete math-library model
(constant functions with the required values at 0), the constant-zero RNG
stream, fuel 5 — the computation still returns `none`. -/
theorem c7_witness :
    (⟨fun _ => 1, fun _ => 0, fun _ => 1, 0⟩ : JsMath).cosQ 0 = 1 ∧
    (⟨fun _ => 1, fun _ => 0, fun _ => 1, 0⟩ : JsMath).sinQ 0 = 0 ∧
    (⟨fun _ => 1, fun _ => 0, fun _ => 1, 0⟩ : JsMath).pow2 0 = 1 ∧
      createAlleysF ⟨fun _ => 1, fun _ => 0, fun _ => 1, 0⟩ (fun _ => 0) 5 triT
        1 0 0 (1/25) true 0 = none :=
  ⟨rfl, rfl, rfl,
    c7_createAlleys_diverges_on_triangle ⟨fun _ => 1, fun _ => 0, fun _ => 1, 0⟩
      (fun _ => 0) (1/25) rfl rfl rfl 5 0 true⟩

end TownGen
